import Mathlib

set_option maxHeartbeats 1000000
set_option maxRecDepth 8000

/-!
Verification of scripts/gh_issue_generator.py: a shallow embedding of the
checklist parser, the issue-content builder, the submission loop and the
command-line driver, followed by theorems about the claims of the spec.

Python dictionaries are modelled as ordered association lists (insertion
order preserved; assignment to an existing key keeps its position and
replaces its value).  Python strings are Lean strings (lists of unicode
scalar values).  The three regular expressions of the parser are modelled
by explicit string functions whose semantics is spelled out next to each
definition.  Fallible Python code (dictionary indexing that can raise
KeyError, the file read) is modelled with Except and Option.
-/

/-- ASCII whitespace recognized by Python str.strip with no arguments and by
the regex class backslash-s.  Python additionally treats a few rare unicode
codepoints as whitespace; the checklist format and all inputs considered
here are ASCII, so the model covers the ASCII whitespace characters. -/
def pyIsSpace (c : Char) : Bool :=
  c = ' ' || c = '\t' || c = '\n' || c = '\r' || c = '\x0b' || c = '\x0c'

/-- Both ends of a character list stripped of whitespace, modelling
Python str.strip with no arguments. -/
def stripChars (l : List Char) : List Char :=
  ((l.dropWhile pyIsSpace).reverse.dropWhile pyIsSpace).reverse

/-- Model of Python str.strip with no arguments. -/
def pyStrip (s : String) : String := String.mk (stripChars s.toList)

/-- The codepoints of the decorative character class of the phase-header
regex.  The gear emoji in the source is two codepoints, U+2699 followed by
the variation selector U+FE0F, and a Python character class treats each
codepoint as a separate member. -/
def decorationChars : List Char :=
  ['⚙', '️', '🌐', '🔌', '🎨', '🔒', '📦', '✨', '🚀']

/-- Characters the trailing part of the phase-header regex can absorb:
whitespace (backslash-s) or a member of the decorative class. -/
def wsOrDecoration (c : Char) : Bool := pyIsSpace c || decorationChars.contains c

/-- Characters of the literal opening of the phase-header regex. -/
def phaseMark : List Char := ['#', '#', ' ', 'P', 'h', 'a', 's', 'e', ' ']

/-- Characters of the literal opening of the section-header regex. -/
def sectionMark : List Char := ['#', '#', '#', ' ']

/-- Characters of the literal opening of the unchecked-task regex. -/
def taskMark : List Char := ['-', ' ', '[', ' ', ']', ' ']

/-- The text captured by the lazy group tail in the phase-header regex: after
the colon, the lazy subpattern takes the shortest non-empty newline-free
prefix of R whose remainder consists only of whitespace and decorative
characters; if the shortest candidate contains a newline no longer one can
succeed (larger prefixes contain the smaller), so the match fails. -/
def lazyCore (R : List Char) : Option (List Char) :=
  if R.isEmpty then none
  else
    let k := (R.reverse.takeWhile wsOrDecoration).length
    let core := R.take (max 1 (R.length - k))
    if core.contains '\n' then none else some core

/-- Model of the phase-header recognition of parse_checklist: the regex
anchored at the start demands the literal opening, one or more digits (the
greedy digit run must be followed by the colon), a colon, and the lazy tail;
group 1 is the literal word, the digits, the colon and the lazy core, and
the code strips the captured group.  Char.isDigit covers the ASCII digits;
the unicode digits Python's backslash-d also accepts do not occur in the
inputs considered here. -/
def phase_match (s : String) : Option String :=
  let l := s.toList
  if l.take 9 = phaseMark then
    let rest := l.drop 9
    let digits := rest.takeWhile Char.isDigit
    if digits.isEmpty then none
    else
      match rest.drop digits.length with
      | ':' :: r =>
        match lazyCore r with
        | some core =>
          some (String.mk (stripChars (['P', 'h', 'a', 's', 'e', ' '] ++ digits ++ [':'] ++ core)))
        | none => none
      | _ => none
  else none

/-- The semantics of a final greedy dot-plus group followed by a dollar in a
Python regex: the dot excludes newlines and the dollar also matches just
before one trailing newline, so the group is the rest of the string minus an
optional final newline, and it must be non-empty and newline-free. -/
def tailMatch (rest : List Char) : Option (List Char) :=
  if rest.getLast? = some '\n' then
    if rest.dropLast.isEmpty || rest.dropLast.contains '\n' then none else some rest.dropLast
  else
    if rest.isEmpty || rest.contains '\n' then none else some rest

/-- Model of the section-header recognition of parse_checklist: the literal
opening of three hash marks and a space, then a non-empty tail captured as
group 1, which the code strips. -/
def section_match (s : String) : Option String :=
  let l := s.toList
  if l.take 4 = sectionMark then
    match tailMatch (l.drop 4) with
    | some r => some (String.mk (stripChars r))
    | none => none
  else none

/-- Model of the unchecked-task recognition of parse_checklist: the literal
opening dash, space, bracket, space, bracket, space, then a non-empty tail
captured as group 1, which the code strips. -/
def task_match (s : String) : Option String :=
  let l := s.toList
  if l.take 6 = taskMark then
    match tailMatch (l.drop 6) with
    | some r => some (String.mk (stripChars r))
    | none => none
  else none

/-- A completed-task line: its stripped form begins with the checked marker
used in the checklist format. -/
def checked_line (line : String) : Bool :=
  ['-', ' ', '[', 'x', ']', ' '].isPrefixOf (pyStrip line).toList

/-- The inner mapping of the parse result: section label to ordered task list,
as an insertion-ordered association list. -/
abbrev Sections := List (String × List String)

/-- The parse result: phase label to section mapping, insertion-ordered. -/
abbrev Phases := List (String × Sections)

/-- Assignment d[k] = v on a Python dict: an existing key keeps its position
and gets the new value, a new key is appended at the end. -/
def dictSet {α : Type} (d : List (String × α)) (k : String) (v : α) : List (String × α) :=
  if d.any (fun p => p.1 == k) then d.map (fun p => if p.1 == k then (k, v) else p)
  else d ++ [(k, v)]

/-- Lookup d[k] on a Python dict, none modelling a KeyError. -/
def dictGet {α : Type} (d : List (String × α)) (k : String) : Option α :=
  (d.find? (fun p => p.1 == k)).map Prod.snd

/-- The mutable state of the parsing loop of parse_checklist. -/
structure PState where
  phases : Phases
  current_phase : Option String
  current_section : Option String
deriving DecidableEq, Repr

/-- Python truthiness of an optional string: None and the empty string are
falsy, every other string is truthy. -/
def truthy : Option String → Bool
  | none => false
  | some s => !(s == "")

/-- The task branch of the loop body of parse_checklist: when the stripped
line matches the unchecked-task pattern and both current_phase and
current_section are truthy, the code runs
phases[current_phase][current_section].append(task); each of the two
indexing steps raises KeyError when the key is absent. -/
def task_step (st : PState) (stripped : String) : Except String PState :=
  match task_match stripped with
  | some task =>
    if truthy st.current_phase && truthy st.current_section then
      let cp := st.current_phase.getD ""
      let cs := st.current_section.getD ""
      match dictGet st.phases cp with
      | none => .error "KeyError"
      | some secs =>
        match dictGet secs cs with
        | none => .error "KeyError"
        | some ts =>
          .ok ⟨dictSet st.phases cp (dictSet secs cs (ts ++ [task])), st.current_phase,
               st.current_section⟩
    else .ok st
  | none => .ok st

/-- One iteration of the loop of parse_checklist over a raw line.  The phase
branch sets current_phase and resets its entry to an empty dict, and, as in
the source, does not touch current_section.  The section branch fires only
when the section pattern matches and current_phase is truthy; otherwise
control falls through to the task branch, as in the source. -/
def step (st : PState) (line : String) : Except String PState :=
  let stripped := pyStrip line
  match phase_match stripped with
  | some label => .ok ⟨dictSet st.phases label [], some label, st.current_section⟩
  | none =>
    match section_match stripped with
    | some sec =>
      if truthy st.current_phase then
        let cp := st.current_phase.getD ""
        match dictGet st.phases cp with
        | none => .error "KeyError"
        | some secs =>
          .ok ⟨dictSet st.phases cp (dictSet secs sec []), st.current_phase, some sec⟩
      else task_step st stripped
    | none => task_step st stripped

/-- The loop of parse_checklist threaded through the lines. -/
def runLines : PState → List String → Except String PState
  | st, [] => .ok st
  | st, l :: ls =>
    match step st l with
    | .error e => .error e
    | .ok st' => runLines st' ls

/-- Model of parse_checklist applied to the lines of the file: the nested
phase-to-section-to-task mapping, or the uncaught exception the loop can
raise. -/
def parse_checklist (lines : List String) : Except String Phases :=
  (runLines ⟨[], none, none⟩ lines).map (·.phases)

/-- Modelled from the spec: one parsing step as section 4.1 of the spec
describes it, the second definition of a refinement pair.  It differs from
the code in that a phase header clears the current section, the section and
task branches require the current labels to be set rather than Python-truthy,
a first pattern match consumes the line, and no step can fail (the defaulted
lookups are never reached from the initial state, since a set current section
is always registered under the current phase). -/
def spec_step (st : PState) (line : String) : PState :=
  let stripped := pyStrip line
  match phase_match stripped with
  | some label => ⟨dictSet st.phases label [], some label, none⟩
  | none =>
    match section_match stripped with
    | some sec =>
      match st.current_phase with
      | some cp =>
        ⟨dictSet st.phases cp (dictSet ((dictGet st.phases cp).getD []) sec []),
         st.current_phase, some sec⟩
      | none => st
    | none =>
      match task_match stripped with
      | some task =>
        match st.current_phase, st.current_section with
        | some cp, some cs =>
          let secs := (dictGet st.phases cp).getD []
          let ts := (dictGet secs cs).getD []
          ⟨dictSet st.phases cp (dictSet secs cs (ts ++ [task])), st.current_phase,
           st.current_section⟩
        | _, _ => st
      | none => st

/-- Modelled from the spec: the whole parse as section 4.1 of the spec
describes it, total on every document. -/
def spec_parse (lines : List String) : Phases :=
  (lines.foldl spec_step ⟨[], none, none⟩).phases

/-- Python str.split on a single separator character: every occurrence
splits, adjacent separators produce empty fields, the empty string yields
one empty field. -/
def pySplit (sep : Char) : List Char → List (List Char)
  | [] => [[]]
  | c :: cs =>
    match pySplit sep cs with
    | [] => [[]]
    | r :: rs => if c = sep then [] :: r :: rs else (c :: r) :: rs

/-- Model of generate_issue_content: the title is the phase label up to the
first colon (Python split on the colon, field 0) in brackets followed by the
section label, and the body is the fixed four-part template with the task
lines folded in between. -/
def generate_issue_content (phase sect : String) (tasks : List String) : String × String :=
  let title := "[" ++ String.mk ((pySplit ':' phase.toList).headD []) ++ "] " ++ sect
  let body0 := "## Description\nImplement the following tasks for **" ++ sect ++ "** in **" ++
    phase ++ "**.\n\n## Tasks\n"
  let body1 := tasks.foldl (fun b t => b ++ "- [ ] " ++ t ++ "\n") body0
  let body2 := body1 ++
    "\n## Context\nThis issue is part of the implementation checklist for the Proxy Desktop Browser project.\n\n## Acceptance Criteria\n- All tasks listed above are completed\n- Code is tested and working\n- Documentation is updated if needed\n"
  (title, body2)

/-- Split of a character list at every occurrence of a separator character;
used to talk about the lines of the generated body. -/
def splitOnChar (sep : Char) : List Char → List (List Char)
  | [] => [[]]
  | c :: cs =>
    match splitOnChar sep cs with
    | [] => [[]]
    | r :: rs => if c = sep then [] :: r :: rs else (c :: r) :: rs

/-- Outcome of one run of the external tracker command: its exit status and
captured output streams. -/
structure GhResult where
  returncode : Int
  stdout : String
  stderr : String
deriving DecidableEq, Repr

/-- The command line built by create_github_issue for the external tracker;
main always calls it without labels, and a falsy labels argument (absent or
empty) adds nothing. -/
def gh_cmd (title body : String) (labels : Option (List String)) : List String :=
  ["gh", "issue", "create", "--title", title, "--body", body] ++
    (match labels with
     | none => []
     | some ls => if ls.isEmpty then [] else ["--label", String.intercalate "," ls])

/-- Model of create_github_issue: given the outcome of the subprocess it
returns the success flag the source returns together with the text the
source prints for this issue. -/
def create_github_issue (title : String) (r : GhResult) : Bool × String :=
  if r.returncode = 0 then
    (true, "✅ Created issue: " ++ title ++ "\n   URL: " ++ pyStrip r.stdout)
  else
    (false, "❌ Failed to create issue: " ++ title ++ "\n   Error: " ++ r.stderr)

/-- Model of the submission loop of main under the create flag: the issues
are visited in order, the head of the result stream is the outcome of the
next external call, and the returned flag and text never influence which
issues are visited next.  Each element of the result pairs the submitted
title and body with the flag and text of create_github_issue. -/
def submitLoop : List (String × String × String) → List GhResult →
    List ((String × String) × Bool × String)
  | [], _ => []
  | (title, body, _phase) :: rest, results =>
    let r := results.headD ⟨1, "", ""⟩
    let fm := create_github_issue title r
    ((title, body), fm.1, fm.2) :: submitLoop rest results.tail

/-- The phase-filter test of main: a phase is skipped exactly when a truthy
filter is present and the label does not start with the literal text
Phase followed by a space and the filter string. -/
def phaseKept (filt : Option String) (label : String) : Bool :=
  !(truthy filt && !(("Phase " ++ filt.getD "").toList.isPrefixOf label.toList))

/-- The issue collection loop of main: phases passing the filter contribute
one issue per section with a non-empty task list, each carrying the
generated title, the generated body and the phase label. -/
def issuesToCreate (phases : Phases) (filt : Option String) : List (String × String × String) :=
  (phases.filter (fun pr => phaseKept filt pr.1)).flatMap
    (fun pr => (pr.2.filter (fun sc => !sc.2.isEmpty)).map
      (fun sc =>
        ((generate_issue_content pr.1 sc.1 sc.2).1, (generate_issue_content pr.1 sc.1 sc.2).2,
         pr.1)))

/-- Exit status of main.  The argument vector includes the program name at
position zero; file is the checklist contents as lines with none modelling an
unreadable file; subOutcome gives the exit status of each external call.  A
missing positional argument runs sys.exit(1); an unreadable file raises an
uncaught IOError and a failing parse raises an uncaught KeyError, and the
interpreter exits with status 1 on an uncaught exception; every completed
run returns from main normally with status 0, the submission outcomes never
being consulted for the exit status. -/
def main_exit (argv : List String) (file : Option (List String)) (_subOutcome : Nat → Int) :
    Nat :=
  if argv.length < 2 then 1
  else
    match file with
    | none => 1
    | some lines =>
      match parse_checklist lines with
      | .error _ => 1
      | .ok _ => 0

/-- The relation between a state of the code loop and a state of the spec
loop maintained while no exception has been raised: the maps and current
phases agree, every set label is non-empty (so Python truthiness coincides
with being set), and the current sections either agree or the code holds a
stale section left over from before the last phase header while the spec
holds none, in which case the current phase is set and its entry is still
the empty dict. -/
structure StepInv (c s : PState) : Prop where
  phases_eq : c.phases = s.phases
  cp_eq : c.current_phase = s.current_phase
  cp_ne : ∀ lbl, c.current_phase = some lbl → lbl ≠ ""
  section_rel :
    (c.current_section = s.current_section ∧ ∀ l, c.current_section = some l → l ≠ "") ∨
    (s.current_section = none ∧ ∃ l cp, c.current_section = some l ∧ l ≠ "" ∧
      c.current_phase = some cp ∧ dictGet c.phases cp = some [])

/-! ### Helper lemmas about strings, stripping and dictionaries -/

theorem toList_append (a b : String) : (a ++ b).toList = a.toList ++ b.toList :=
  String.data_append a b

theorem head?_dropWhile {p : Char → Bool} {l : List Char} {a : Char}
    (h : (l.dropWhile p).head? = some a) : p a = false := by
  induction l with
  | nil => simp [List.dropWhile] at h
  | cons c t ih =>
    rw [List.dropWhile_cons] at h
    by_cases hc : p c
    · rw [if_pos hc] at h; exact ih h
    · rw [if_neg hc] at h
      simp only [List.head?_cons, Option.some.injEq] at h
      subst h
      exact Bool.eq_false_iff.mpr hc

theorem stripChars_eq_nil_iff {l : List Char} :
    stripChars l = [] ↔ ∀ c ∈ l, pyIsSpace c = true := by
  simp only [stripChars, List.reverse_eq_nil_iff, List.dropWhile_eq_nil_iff, List.mem_reverse]
  constructor
  · intro h c hc
    rw [← List.takeWhile_append_dropWhile (p := pyIsSpace) (l := l)] at hc
    rcases List.mem_append.mp hc with h1 | h2
    · exact List.mem_takeWhile_imp h1
    · exact h c h2
  · intro h c hc
    exact h c ((List.dropWhile_sublist pyIsSpace).subset hc)

theorem stripChars_getLast?_not_space {l : List Char} {c : Char}
    (h : (stripChars l).getLast? = some c) : pyIsSpace c = false := by
  unfold stripChars at h
  rw [List.getLast?_reverse] at h
  exact head?_dropWhile h

theorem mem_of_getLast?_eq {l : List Char} {a : Char} (h : l.getLast? = some a) : a ∈ l := by
  rcases List.getLast?_eq_some_iff.mp h with ⟨ys, rfl⟩
  simp

theorem string_mk_ne_empty {l : List Char} (h : l ≠ []) : String.mk l ≠ "" := by
  intro hc
  exact h (congrArg String.data hc)

theorem dictGet_dictSet_self {α : Type} (d : List (String × α)) (k : String) (v : α) :
    dictGet (dictSet d k v) k = some v := by
  induction d with
  | nil => simp [dictSet, dictGet]
  | cons p t ih =>
    by_cases hp : p.1 = k
    · simp [dictSet, dictGet, hp, List.any_cons]
    · have hbp : (p.1 == k) = false := beq_false_of_ne hp
      by_cases ht : t.any (fun q => q.1 == k)
      · have h1 : dictSet (p :: t) k v = p :: dictSet t k v := by
          simp [dictSet, List.any_cons, hbp, ht, hp]
        rw [h1]
        simpa [dictGet, hbp] using ih
      · have h1 : dictSet (p :: t) k v = p :: dictSet t k v := by
          simp [dictSet, List.any_cons, hbp, ht, hp]
        rw [h1]
        simpa [dictGet, hbp] using ih

theorem dictSet_keys {α : Type} (d : List (String × α)) (k : String) (v : α) :
    (dictSet d k v).map Prod.fst =
      if d.any (fun p => p.1 == k) then d.map Prod.fst else d.map Prod.fst ++ [k] := by
  unfold dictSet
  by_cases h : d.any (fun p => p.1 == k)
  · rw [if_pos h, if_pos h, List.map_map]
    apply List.map_congr_left
    intro p _
    by_cases hp : p.1 = k
    · simp [hp]
    · simp [Function.comp, hp]
  · rw [if_neg h, if_neg h]
    simp

theorem stripChars_ne_nil_of_mem {l : List Char} {c : Char} (hc : c ∈ l)
    (hns : pyIsSpace c = false) : stripChars l ≠ [] := by
  intro h
  have hall := stripChars_eq_nil_iff.mp h c hc
  rw [hns] at hall
  exact Bool.false_ne_true hall

theorem phase_match_ne_empty {s lbl : String} (h : phase_match s = some lbl) : lbl ≠ "" := by
  simp only [phase_match] at h
  split at h
  · split at h
    · simp at h
    · split at h
      · split at h
        · rw [Option.some.injEq] at h
          subst h
          apply string_mk_ne_empty
          apply stripChars_ne_nil_of_mem (c := 'P')
          · simp
          · rfl
        · simp at h
      · simp at h
  · simp at h

theorem getLast?_stripChars_drop {l : List Char} {n : Nat} {c : Char}
    (h : ((stripChars l).drop n).getLast? = some c) : (stripChars l).getLast? = some c := by
  conv_lhs => rw [← List.take_append_drop n (stripChars l)]
  rw [List.getLast?_append, h]
  rfl

theorem stripMk_drop_ne_empty {l : List Char} {n : Nat}
    (hne : (stripChars l).drop n ≠ []) : String.mk (stripChars ((stripChars l).drop n)) ≠ "" := by
  obtain ⟨c, hc⟩ := Option.isSome_iff_exists.mp (List.getLast?_isSome.mpr hne)
  have hns := stripChars_getLast?_not_space (getLast?_stripChars_drop hc)
  exact string_mk_ne_empty (stripChars_ne_nil_of_mem (mem_of_getLast?_eq hc) hns)

theorem section_match_strip_ne_empty {line sec : String}
    (h : section_match (pyStrip line) = some sec) : sec ≠ "" := by
  have hL : (pyStrip line).toList = stripChars line.toList := rfl
  simp only [section_match, tailMatch, hL] at h
  split at h
  · split at h
    next r heq =>
      rw [Option.some.injEq] at h
      subst h
      split at heq
      case isTrue hlast =>
        exfalso
        have hns := stripChars_getLast?_not_space (getLast?_stripChars_drop hlast)
        simp [pyIsSpace] at hns
      case isFalse hlast =>
        split at heq
        · simp at heq
        case isFalse hne =>
          rw [Option.some.injEq] at heq
          subst heq
          apply stripMk_drop_ne_empty
          intro hnil
          rw [hnil] at hne
          simp at hne
    next heq => simp at h
  · simp at h

theorem section_match_task_none {s sec : String} (h : section_match s = some sec) :
    task_match s = none := by
  simp only [section_match] at h
  unfold task_match
  rcases hl : s.toList with _ | ⟨c, cs⟩
  · rw [hl] at h
    simp [sectionMark] at h
  · rw [hl] at h
    split at h
    case isTrue h4 =>
      have hc : c = '#' := by
        rw [List.take_cons (by norm_num)] at h4
        exact (List.cons.injEq _ _ _ _).mp (by simpa [sectionMark] using h4) |>.1
      rw [if_neg]
      rw [List.take_cons (by norm_num), hc]
      simp [taskMark]
    case isFalse h4 => simp at h

theorem checked_line_matches {line : String} (h : checked_line line = true) :
    phase_match (pyStrip line) = none ∧ section_match (pyStrip line) = none ∧
      task_match (pyStrip line) = none := by
  unfold checked_line at h
  rw [List.isPrefixOf_iff_prefix] at h
  rcases h with ⟨rest, hrest⟩
  refine ⟨?_, ?_, ?_⟩
  · unfold phase_match
    rw [if_neg]
    rw [← hrest]
    simp [phaseMark]
  · unfold section_match
    rw [if_neg]
    rw [← hrest]
    simp [sectionMark]
  · unfold task_match
    rw [if_neg]
    rw [← hrest]
    simp [taskMark]

theorem step_checked (st : PState) {line : String} (h : checked_line line = true) :
    step st line = .ok st := by
  obtain ⟨h1, h2, h3⟩ := checked_line_matches h
  simp only [step, task_step, h1, h2, h3]

theorem runLines_append (st : PState) (d1 d2 : List String) :
    runLines st (d1 ++ d2) =
      match runLines st d1 with
      | .error e => .error e
      | .ok st' => runLines st' d2 := by
  induction d1 generalizing st with
  | nil => simp [runLines]
  | cons l ls ih =>
    simp only [List.cons_append, runLines]
    cases step st l with
    | error e => rfl
    | ok st' => exact ih st'

/-! ### Claim theorems -/

/-- C1: the claim that parse_checklist raises no error on any line content is
contradicted by the code: a phase header does not clear the stale current
section of an earlier phase, and an unchecked task line arriving after the
new phase header and before any section header of the new phase indexes the
new phase's empty section dict and raises KeyError. -/
theorem C1_parser_raises_keyerror :
    parse_checklist ["## Phase 1: A", "### S", "## Phase 2: B", "- [ ] t"] =
      Except.error "KeyError" := rfl

/-- C2: the claim that matching a phase header clears the current section is
contradicted by the code: the phase branch of the loop leaves
current_section untouched, and on the displayed document the stale section
then turns the first task line of the new phase into a KeyError instead of
an ignored line. -/
theorem C2_phase_header_keeps_section :
    step ⟨[("Phase 1: Alpha", [("Setup", ["task one"])])], some "Phase 1: Alpha", some "Setup"⟩
        "## Phase 2: Beta" =
      Except.ok ⟨[("Phase 1: Alpha", [("Setup", ["task one"])]), ("Phase 2: Beta", [])],
        some "Phase 2: Beta", some "Setup"⟩ ∧
    parse_checklist ["## Phase 1: Alpha", "### Setup", "## Phase 2: Beta", "- [ ] task one"] =
      Except.error "KeyError" := ⟨rfl, rfl⟩

/-- C3 counterexample: a run whose positional argument is present but whose
checklist file is unreadable exits with status one, so a non-zero exit is
not confined to the missing-argument path as the claim states. -/
theorem C3_counterexample :
    main_exit ["gh_issue_generator.py", "CHECKLIST.md"] none (fun _ => 0) ≠ 0 ∧
    (["gh_issue_generator.py", "CHECKLIST.md"] : List String).length = 2 := ⟨by decide, rfl⟩

/-- C3 amended: the exit status is non-zero exactly when the positional
argument is missing, the checklist file is unreadable, or the parse raises
its KeyError; every completed run exits with status zero regardless of the
submission outcomes, which the exit status never consults. -/
theorem C3_exit_status :
    (∀ argv file sub, main_exit argv file sub ≠ 0 ↔
      (argv.length < 2 ∨ file = none ∨
        ∃ lines e, file = some lines ∧ parse_checklist lines = Except.error e)) ∧
    (∀ argv file sub sub', main_exit argv file sub = main_exit argv file sub') := by
  constructor
  · intro argv file sub
    unfold main_exit
    by_cases ha : argv.length < 2
    · simp [ha]
    · rw [if_neg ha]
      cases file with
      | none => simp [ha]
      | some lines =>
        cases hp : parse_checklist lines with
        | error e =>
          simp only [hp]
          constructor
          · intro _
            exact Or.inr (Or.inr ⟨lines, e, rfl, hp⟩)
          · intro _
            exact Nat.one_ne_zero
        | ok ph => simp [ha, hp]
  · intro argv file sub sub'
    rfl

/-- C10 counterexample: the claim that a line of four or more hash marks
such as "#### Foo" is classified as a section header capturing the label
"# Foo" is false: the section pattern requires the fourth character to be a
space, so the line matches nothing, and a task following it under a fresh
phase is dropped for want of a current section. -/
theorem C10_counterexample :
    section_match (pyStrip "#### Foo") ≠ some "# Foo" ∧
    parse_checklist ["## Phase 1: A", "#### Foo", "- [ ] x"] =
      Except.ok [("Phase 1: A", [])] := ⟨by decide, rfl⟩

/-- C10 amended: a line whose stripped form begins with four or more hash
marks, such as "#### Foo", is not a section header: the section pattern
demands exactly three hash marks and a space at the start of the line.
Surplus hash marks survive into the captured label only when they follow
that opening, as in "### # Foo", which is a section header with label
"# Foo" when a current phase is set. -/
theorem C10_section_opening :
    section_match (pyStrip "#### Foo") = none ∧
    section_match (pyStrip "### # Foo") = some "# Foo" ∧
    parse_checklist ["## Phase 1: B", "### # Foo", "- [ ] x"] =
      Except.ok [("Phase 1: B", [("# Foo", ["x"])])] := ⟨rfl, rfl, rfl⟩

/-- C7: a phase header processed at any state resets the entry of the
captured label to an empty section map while an existing key keeps its
position, so a repeated phase label merges into a single map entry whose
accumulated sections and tasks are discarded at each re-occurrence; the
concrete parse shows the end-to-end overwrite on a document repeating a
label. -/
theorem C7_repeated_phase_overwrites :
    (∀ st line lbl, phase_match (pyStrip line) = some lbl →
      step st line = Except.ok ⟨dictSet st.phases lbl [], some lbl, st.current_section⟩) ∧
    (∀ (d : Phases) lbl, dictGet (dictSet d lbl []) lbl = some [] ∧
      (dictSet d lbl []).map Prod.fst =
        (if d.any (fun p => p.1 == lbl) then d.map Prod.fst else d.map Prod.fst ++ [lbl])) ∧
    parse_checklist ["## Phase 1: A", "### S1", "- [ ] t1", "## Phase 1: A", "### S2",
        "- [ ] t2"] = Except.ok [("Phase 1: A", [("S2", ["t2"])])] := by
  refine ⟨?_, ?_, rfl⟩
  · intro st line lbl h
    simp only [step, h]
  · intro d lbl
    exact ⟨dictGet_dictSet_self d lbl [], dictSet_keys d lbl []⟩

/-- Witness for C7: the phase-header step applied at a concrete state
holding sections under the same label. -/
theorem C7_witness :
    phase_match (pyStrip "## Phase 1: A") = some "Phase 1: A" ∧
    step ⟨[("Phase 1: A", [("S1", ["t1"])])], some "Phase 1: A", some "S1"⟩ "## Phase 1: A" =
      Except.ok ⟨[("Phase 1: A", [])], some "Phase 1: A", some "S1"⟩ :=
  ⟨rfl,
    C7_repeated_phase_overwrites.1
      ⟨[("Phase 1: A", [("S1", ["t1"])])], some "Phase 1: A", some "S1"⟩
      "## Phase 1: A" "Phase 1: A" rfl⟩

/-- C8: the phase filter of main is a pure prefix test: with a non-empty
filter string a phase is kept exactly when its label starts with the literal
text Phase, a space and the filter string, and on the three labels of the
claim with filter 3 exactly the phases Phase 3: Y and Phase 30: Z produce
issues. -/
theorem C8_phase_filter_prefix_test :
    (∀ f label, f ≠ "" →
      (phaseKept (some f) label = true ↔
        ("Phase " ++ f).toList.isPrefixOf label.toList = true)) ∧
    (issuesToCreate
        [("Phase 2: X", [("S", ["t"])]), ("Phase 3: Y", [("S", ["t"])]),
         ("Phase 30: Z", [("S", ["t"])])] (some "3")).map (fun i => i.2.2) =
      ["Phase 3: Y", "Phase 30: Z"] := by
  refine ⟨?_, rfl⟩
  intro f label hf
  simp [phaseKept, truthy, Option.getD, hf]

/-- Witness for C8: the prefix test at the filter 3 and the label of the
longer colliding phase. -/
theorem C8_witness :
    ("3" : String) ≠ "" ∧
    (phaseKept (some "3") "Phase 30: Z" = true ↔
      ("Phase " ++ "3").toList.isPrefixOf "Phase 30: Z".toList = true) :=
  ⟨by decide, C8_phase_filter_prefix_test.1 "3" "Phase 30: Z" (by decide)⟩

/-- C9: a failed submission never aborts the batch: a non-zero exit status
of the external command makes create_github_issue return the failure flag
together with the report carrying the captured standard error, and the
submission loop visits every issue of the batch in order whatever the
outcome stream holds, so no outcome alters which issues are attempted. -/
theorem C9_submission_failures_continue :
    (∀ title r, r.returncode ≠ 0 → create_github_issue title r =
      (false, "❌ Failed to create issue: " ++ title ++ "\n   Error: " ++ r.stderr)) ∧
    (∀ issues results, (submitLoop issues results).map Prod.fst =
      issues.map (fun i => (i.1, i.2.1))) := by
  constructor
  · intro title r h
    unfold create_github_issue
    rw [if_neg h]
  · intro issues
    induction issues with
    | nil => intro results; rfl
    | cons i rest ih =>
      intro results
      obtain ⟨title, body, phase⟩ := i
      simp only [submitLoop, List.map_cons]
      rw [ih results.tail]

/-- Witness for C9: a failing outcome of the external command at a concrete
issue. -/
theorem C9_witness :
    ((1 : Int) ≠ 0) ∧
    create_github_issue "T" ⟨1, "out", "boom"⟩ =
      (false, "❌ Failed to create issue: T\n   Error: boom") :=
  ⟨by decide, C9_submission_failures_continue.1 "T" ⟨1, "out", "boom"⟩ (by decide)⟩

theorem pySplit_ne_nil (sep : Char) (l : List Char) : pySplit sep l ≠ [] := by
  cases l with
  | nil => simp [pySplit]
  | cons c cs =>
    unfold pySplit
    cases h : pySplit sep cs with
    | nil => simp
    | cons r rs => by_cases hc : c = sep <;> simp [hc]

theorem pySplit_headD (sep : Char) (l : List Char) :
    (pySplit sep l).headD [] = l.takeWhile (fun c => !(c == sep)) := by
  induction l with
  | nil => rfl
  | cons c cs ih =>
    unfold pySplit
    cases h : pySplit sep cs with
    | nil => exact absurd h (pySplit_ne_nil sep cs)
    | cons r rs =>
      by_cases hc : c = sep
      · subst hc
        simp [List.takeWhile_cons]
      · have hr : r = cs.takeWhile (fun c => !(c == sep)) := by
          have h2 := ih
          rw [h] at h2
          simpa using h2
        simp [List.takeWhile_cons, hc, hr]

/-- C5: the generated title is the phase label cut at its first colon, in
brackets, followed by a space and the section label: the head field of the
Python colon-split is the longest colon-free prefix of the label, and the
example of the claim evaluates accordingly. -/
theorem C5_title_format :
    (∀ phase sect tasks, ':' ∈ phase.toList →
      (generate_issue_content phase sect tasks).1 =
        "[" ++ String.mk (phase.toList.takeWhile (fun c => !(c == ':'))) ++ "] " ++ sect) ∧
    (generate_issue_content "Phase 12: Foo Bar" "Widget Support" ["t"]).1 =
      "[Phase 12] Widget Support" := by
  constructor
  · intro phase sect tasks _
    simp only [generate_issue_content]
    rw [pySplit_headD]
  · rfl

/-- Witness for C5 at the example of the spec. -/
theorem C5_witness :
    ':' ∈ ("Phase 3: Networking Layer" : String).toList ∧
    (generate_issue_content "Phase 3: Networking Layer" "Connection Pool" ["a"]).1 =
      "[" ++ String.mk (("Phase 3: Networking Layer" : String).toList.takeWhile
        (fun c => !(c == ':'))) ++ "] " ++ "Connection Pool" :=
  ⟨by decide, C5_title_format.1 "Phase 3: Networking Layer" "Connection Pool" ["a"] (by decide)⟩

theorem splitOnChar_ne_nil (sep : Char) (l : List Char) : splitOnChar sep l ≠ [] := by
  cases l with
  | nil => simp [splitOnChar]
  | cons c cs =>
    unfold splitOnChar
    cases h : splitOnChar sep cs with
    | nil => simp
    | cons r rs => by_cases hc : c = sep <;> simp [hc]

theorem splitOnChar_cons_sep (ys : List Char) :
    splitOnChar '\n' ('\n' :: ys) = [] :: splitOnChar '\n' ys := by
  cases h : splitOnChar '\n' ys with
  | nil => exact absurd h (splitOnChar_ne_nil _ _)
  | cons r rs => simp [splitOnChar, h]

theorem splitOnChar_append_sep {xs : List Char} (hx : '\n' ∉ xs) (ys : List Char) :
    splitOnChar '\n' (xs ++ '\n' :: ys) = xs :: splitOnChar '\n' ys := by
  induction xs with
  | nil => simpa using splitOnChar_cons_sep ys
  | cons c cs ih =>
    have hc : ¬(c = '\n') := fun hcc => hx (by rw [hcc]; exact List.mem_cons_self _ _)
    have hcs : '\n' ∉ cs := fun hm => hx (List.mem_cons_of_mem c hm)
    rw [List.cons_append]
    simp [splitOnChar, ih hcs, hc]

theorem splitOnChar_taskBlock (ts : List String) (rest : List Char)
    (ht : ∀ t ∈ ts, '\n' ∉ t.toList) :
    splitOnChar '\n' (ts.flatMap (fun t => taskMark ++ t.toList ++ ['\n']) ++ rest) =
      ts.map (fun t => taskMark ++ t.toList) ++ splitOnChar '\n' rest := by
  induction ts with
  | nil => simp
  | cons t ts ih =>
    have hx : '\n' ∉ taskMark ++ t.toList := by
      intro hm
      rcases List.mem_append.mp hm with hm | hm
      · simp [taskMark] at hm
      · exact ht t (List.mem_cons_self t ts) hm
    rw [List.flatMap_cons, List.map_cons, List.append_assoc, List.append_assoc,
      List.singleton_append, splitOnChar_append_sep hx,
      ih (fun u hu => ht u (List.mem_cons_of_mem t hu))]
    simp

theorem foldl_task_lines (ts : List String) (b0 : String) :
    (ts.foldl (fun b t => b ++ "- [ ] " ++ t ++ "\n") b0).toList =
      b0.toList ++ ts.flatMap (fun t => taskMark ++ t.toList ++ ['\n']) := by
  induction ts generalizing b0 with
  | nil => simp
  | cons t ts ih =>
    rw [List.foldl_cons, ih, List.flatMap_cons]
    simp only [toList_append]
    rw [show ("- [ ] " : String).toList = taskMark from rfl,
      show ("\n" : String).toList = ['\n'] from rfl]
    simp [List.append_assoc]

theorem body_chars (phase sect : String) (tasks : List String) :
    (generate_issue_content phase sect tasks).2.toList =
      "## Description".toList ++ '\n' ::
        (("Implement the following tasks for **".toList ++ sect.toList ++
          "** in **".toList ++ phase.toList ++ "**.".toList) ++ '\n' ::
          '\n' :: ("## Tasks".toList ++ '\n' ::
            (tasks.flatMap (fun t => taskMark ++ t.toList ++ ['\n']) ++
              "\n## Context\nThis issue is part of the implementation checklist for the Proxy Desktop Browser project.\n\n## Acceptance Criteria\n- All tasks listed above are completed\n- Code is tested and working\n- Documentation is updated if needed\n".toList))) := by
  simp only [generate_issue_content]
  rw [toList_append, foldl_task_lines]
  simp only [toList_append]
  rw [show ("## Description\nImplement the following tasks for **" : String).toList =
      "## Description".toList ++ '\n' :: "Implement the following tasks for **".toList from rfl,
    show ("**.\n\n## Tasks\n" : String).toList =
      "**.".toList ++ '\n' :: '\n' :: "## Tasks".toList ++ ['\n'] from rfl]
  simp [List.append_assoc]

theorem body_lines (phase sect : String) (tasks : List String)
    (hp : '\n' ∉ phase.toList) (hs : '\n' ∉ sect.toList)
    (ht : ∀ t ∈ tasks, '\n' ∉ t.toList) :
    splitOnChar '\n' (generate_issue_content phase sect tasks).2.toList =
      ["## Description".toList,
       "Implement the following tasks for **".toList ++ sect.toList ++ "** in **".toList ++
         phase.toList ++ "**.".toList,
       [], "## Tasks".toList] ++
      tasks.map (fun t => taskMark ++ t.toList) ++
      [[], "## Context".toList,
       "This issue is part of the implementation checklist for the Proxy Desktop Browser project.".toList,
       [], "## Acceptance Criteria".toList,
       "- All tasks listed above are completed".toList,
       "- Code is tested and working".toList,
       "- Documentation is updated if needed".toList, []] := by
  have himpl : '\n' ∉ ("Implement the following tasks for **".toList ++ sect.toList ++
      "** in **".toList ++ phase.toList ++ "**.".toList) := by
    simp only [List.append_assoc, List.mem_append, not_or]
    refine ⟨by decide, hs, by decide, hp, by decide⟩
  have hctx : splitOnChar '\n'
      ("\n## Context\nThis issue is part of the implementation checklist for the Proxy Desktop Browser project.\n\n## Acceptance Criteria\n- All tasks listed above are completed\n- Code is tested and working\n- Documentation is updated if needed\n" : String).toList =
      [[], "## Context".toList,
       "This issue is part of the implementation checklist for the Proxy Desktop Browser project.".toList,
       [], "## Acceptance Criteria".toList,
       "- All tasks listed above are completed".toList,
       "- Code is tested and working".toList,
       "- Documentation is updated if needed".toList, []] := rfl
  rw [body_chars, splitOnChar_append_sep (by decide), splitOnChar_append_sep himpl,
    splitOnChar_cons_sep, splitOnChar_append_sep (by decide),
    splitOnChar_taskBlock tasks _ ht, hctx]
  simp

/-- C6: for a non-empty task list over single-line texts, the body generated
by generate_issue_content contains exactly one checkbox line per task, each
the unchecked marker followed verbatim by the task text, in input order:
filtering the body's lines by the marker yields precisely the image of the
task list, no template or interpolated line carrying the marker. -/
theorem C6_body_checkbox_lines (phase sect : String) (tasks : List String)
    (_hne : tasks ≠ []) (hp : '\n' ∉ phase.toList) (hs : '\n' ∉ sect.toList)
    (ht : ∀ t ∈ tasks, '\n' ∉ t.toList) :
    (splitOnChar '\n' (generate_issue_content phase sect tasks).2.toList).filter
        (fun l => taskMark.isPrefixOf l) =
      tasks.map (fun t => taskMark ++ t.toList) := by
  rw [body_lines phase sect tasks hp hs ht]
  rw [List.filter_append, List.filter_append]
  have hA : taskMark.isPrefixOf ("## Description".toList) = false := by decide
  have hB : taskMark.isPrefixOf ("## Tasks".toList) = false := by decide
  have hempty : taskMark.isPrefixOf ([] : List Char) = false := by decide
  have h2 : taskMark.isPrefixOf ("Implement the following tasks for **".toList ++ sect.toList ++
      "** in **".toList ++ phase.toList ++ "**.".toList) = false := by
    rw [show ("Implement the following tasks for **" : String).toList =
        'I' :: "mplement the following tasks for **".toList from rfl]
    simp [taskMark, List.isPrefixOf]
  have h1 : (["## Description".toList,
      "Implement the following tasks for **".toList ++ sect.toList ++ "** in **".toList ++
        phase.toList ++ "**.".toList,
      [], "## Tasks".toList] : List (List Char)).filter (fun l => taskMark.isPrefixOf l) = [] := by
    simp only [List.filter_cons, hA, h2, hempty, hB, List.filter_nil]
    simp
  have h3 : (tasks.map (fun t => taskMark ++ t.toList)).filter
      (fun l => taskMark.isPrefixOf l) = tasks.map (fun t => taskMark ++ t.toList) := by
    rw [List.filter_eq_self]
    intro a ha
    rcases List.mem_map.mp ha with ⟨t, _, rfl⟩
    rw [List.isPrefixOf_iff_prefix]
    exact List.prefix_append _ _
  have h4 : ([[], "## Context".toList,
      "This issue is part of the implementation checklist for the Proxy Desktop Browser project.".toList,
      [], "## Acceptance Criteria".toList,
      "- All tasks listed above are completed".toList,
      "- Code is tested and working".toList,
      "- Documentation is updated if needed".toList, []] : List (List Char)).filter
        (fun l => taskMark.isPrefixOf l) = [] := by decide
  rw [h1, h3, h4]
  simp

/-- Witness for C6 on a concrete phase, section and two tasks. -/
theorem C6_witness :
    (["alpha", "beta"] : List String) ≠ [] ∧
    (splitOnChar '\n'
        (generate_issue_content "Phase 1: Core" "Setup" ["alpha", "beta"]).2.toList).filter
        (fun l => taskMark.isPrefixOf l) =
      ["alpha", "beta"].map (fun t => taskMark ++ t.toList) :=
  ⟨by decide, C6_body_checkbox_lines "Phase 1: Core" "Setup" ["alpha", "beta"]
    (by decide) (by decide) (by decide) (by decide)⟩

theorem truthy_some_of_ne {l : String} (h : l ≠ "") : truthy (some l) = true := by
  simp [truthy, h]

theorem step_refines {c s : PState} {line : String} {c' : PState}
    (inv : StepInv c s) (h : step c line = Except.ok c') :
    StepInv c' (spec_step s line) := by
  obtain ⟨hph, hcp, hne, hsec⟩ := inv
  cases hpm : phase_match (pyStrip line) with
  | some lbl =>
    simp only [step, hpm, Except.ok.injEq] at h
    subst h
    simp only [spec_step, hpm]
    refine ⟨by rw [hph], rfl, ?_, ?_⟩
    · intro l hl
      injection hl with hl
      subst hl
      exact phase_match_ne_empty hpm
    · cases hcsc : c.current_section with
      | none =>
        exact Or.inl ⟨rfl, by intro l hl; simp at hl⟩
      | some l0 =>
        have hl0 : l0 ≠ "" := by
          rcases hsec with ⟨_, hcs_ne⟩ | ⟨_, l, cp0, hcsc2, hlne, _, _⟩
          · exact hcs_ne l0 hcsc
          · rw [hcsc] at hcsc2
            injection hcsc2 with h2
            rw [h2]
            exact hlne
        exact Or.inr ⟨rfl, l0, lbl, rfl, hl0, rfl, dictGet_dictSet_self _ _ _⟩
  | none =>
    simp only [step, hpm] at h
    simp only [spec_step, hpm]
    cases hsm : section_match (pyStrip line) with
    | some sec =>
      simp only [hsm] at h ⊢
      cases hcpc : c.current_phase with
      | some cpv =>
        have hcpv : cpv ≠ "" := hne cpv hcpc
        have htru : truthy c.current_phase = true := by
          rw [hcpc]; exact truthy_some_of_ne hcpv
        rw [if_pos htru, hcpc] at h
        simp only [Option.getD_some] at h
        have hscp : s.current_phase = some cpv := by rw [← hcp, hcpc]
        cases hdg : dictGet c.phases cpv with
        | none => rw [hdg] at h; exact absurd h (by simp)
        | some secs =>
          rw [hdg] at h
          simp only [Except.ok.injEq] at h
          subst h
          simp only [hscp, ← hph, hdg, Option.getD_some]
          refine ⟨rfl, rfl, ?_, ?_⟩
          · intro l hl
            injection hl with hl
            subst hl
            exact hcpv
          · exact Or.inl ⟨rfl, by
              intro l hl
              injection hl with hl
              subst hl
              exact section_match_strip_ne_empty hsm⟩
      | none =>
        have htru : truthy c.current_phase = false := by rw [hcpc]; rfl
        rw [if_neg (by simp [htru])] at h
        have htm := section_match_task_none hsm
        simp only [task_step, htm, Except.ok.injEq] at h
        subst h
        have hscp : s.current_phase = none := by rw [← hcp, hcpc]
        simp only [hscp]
        exact ⟨hph, hcp, hne, hsec⟩
    | none =>
      simp only [hsm] at h ⊢
      cases htm : task_match (pyStrip line) with
      | none =>
        simp only [task_step, htm, Except.ok.injEq] at h
        subst h
        exact ⟨hph, hcp, hne, hsec⟩
      | some task =>
        simp only [task_step, htm] at h
        cases hcpc : c.current_phase with
        | none =>
          have htru : truthy c.current_phase = false := by rw [hcpc]; rfl
          simp only [htru, Bool.false_and, Bool.false_eq_true, if_false,
            Except.ok.injEq] at h
          subst h
          have hscp : s.current_phase = none := by rw [← hcp, hcpc]
          simp only [hscp]
          exact ⟨hph, hcp, hne, hsec⟩
        | some cpv =>
          have hcpv : cpv ≠ "" := hne cpv hcpc
          have hscp : s.current_phase = some cpv := by rw [← hcp, hcpc]
          have htru1 : truthy c.current_phase = true := by
            rw [hcpc]; exact truthy_some_of_ne hcpv
          rcases hsec with ⟨hcs_eq, hcs_ne⟩ | ⟨hsnone, l, cp0, hcsc, hlne, hcp0, hempty⟩
          · cases hcsc : c.current_section with
            | none =>
              have htru2 : truthy c.current_section = false := by rw [hcsc]; rfl
              simp only [htru1, htru2, Bool.and_false, Bool.false_eq_true, if_false,
                Except.ok.injEq] at h
              subst h
              have hscs : s.current_section = none := by rw [← hcs_eq, hcsc]
              simp only [hscp, hscs]
              exact ⟨hph, hcp, hne, Or.inl ⟨hcs_eq, hcs_ne⟩⟩
            | some csv =>
              have hcsv : csv ≠ "" := hcs_ne csv hcsc
              have htru2 : truthy c.current_section = true := by
                rw [hcsc]; exact truthy_some_of_ne hcsv
              rw [if_pos (by rw [htru1, htru2]; rfl), hcpc, hcsc] at h
              simp only [Option.getD_some] at h
              cases hdg1 : dictGet c.phases cpv with
              | none => rw [hdg1] at h; exact absurd h (by simp)
              | some secs =>
                simp only [hdg1] at h
                cases hdg2 : dictGet secs csv with
                | none => simp only [hdg2] at h; exact absurd h (by simp)
                | some ts =>
                  simp only [hdg2, Except.ok.injEq] at h
                  subst h
                  have hscs : s.current_section = some csv := by rw [← hcs_eq, hcsc]
                  simp only [hscp, hscs, ← hph, hdg1, hdg2, Option.getD_some]
                  refine ⟨rfl, rfl, ?_, ?_⟩
                  · intro l hl
                    injection hl with hl
                    subst hl
                    exact hcpv
                  · exact Or.inl ⟨rfl, by
                      intro l hl
                      injection hl with hl
                      subst hl
                      exact hcsv⟩
          · have hcpeq : cp0 = cpv := by
              rw [hcp0] at hcpc
              injection hcpc
            have htru2 : truthy c.current_section = true := by
              rw [hcsc]; exact truthy_some_of_ne hlne
            rw [if_pos (by rw [htru1, htru2]; rfl), hcpc, hcsc] at h
            simp only [Option.getD_some] at h
            rw [hcpeq] at hempty
            rw [hempty] at h
            simp [dictGet] at h

theorem runLines_refines {lines : List String} {c s stf : PState}
    (h : runLines c lines = Except.ok stf) (inv : StepInv c s) :
    stf.phases = (lines.foldl spec_step s).phases := by
  induction lines generalizing c s with
  | nil =>
    simp only [runLines, Except.ok.injEq] at h
    subst h
    simpa using inv.phases_eq
  | cons l ls ih =>
    simp only [runLines] at h
    cases hst : step c l with
    | error e => rw [hst] at h; exact absurd h (by simp)
    | ok c1 =>
      rw [hst] at h
      rw [List.foldl_cons]
      exact ih h (step_refines inv hst)

/-- C4: on every successfully parsed document the parser realizes the
parsing contract of the spec: the computed structure equals the spec-side
parse, which attributes every unchecked task line, in document order, to
the current section of the current phase; and a checked task line is a
no-op of the parser, so a task of a checked line contributes nothing to the
structure. -/
theorem C4_parse_meets_spec :
    (∀ lines ph, parse_checklist lines = Except.ok ph → ph = spec_parse lines) ∧
    (∀ d1 d2 line, checked_line line = true →
      parse_checklist (d1 ++ line :: d2) = parse_checklist (d1 ++ d2)) := by
  constructor
  · intro lines ph h
    unfold parse_checklist at h
    cases hr : runLines ⟨[], none, none⟩ lines with
    | error e => rw [hr] at h; exact absurd h (by simp [Except.map])
    | ok stf =>
      rw [hr] at h
      simp only [Except.map, Except.ok.injEq] at h
      have hinv : StepInv ⟨[], none, none⟩ ⟨[], none, none⟩ :=
        ⟨rfl, rfl, fun _ hl => Option.noConfusion hl,
          Or.inl ⟨rfl, fun _ hl => Option.noConfusion hl⟩⟩
      have hspec := runLines_refines hr hinv
      rw [← h]
      exact hspec
  · intro d1 d2 line hcl
    unfold parse_checklist
    rw [runLines_append, runLines_append]
    cases hr1 : runLines ⟨[], none, none⟩ d1 with
    | error e => rfl
    | ok st1 =>
      have hstep : runLines st1 (line :: d2) = runLines st1 d2 := by
        simp only [runLines, step_checked st1 hcl]
      simp only [hstep]

/-- Witness for C4: a concrete document mixing checked and unchecked tasks,
on which the parser result equals the spec-side parse. -/
theorem C4_witness :
    parse_checklist ["## Phase 1: A", "### S", "- [ ] a", "- [x] done", "- [ ] b"] =
      Except.ok [("Phase 1: A", [("S", ["a", "b"])])] ∧
    ([("Phase 1: A", [("S", ["a", "b"])])] : Phases) =
      spec_parse ["## Phase 1: A", "### S", "- [ ] a", "- [x] done", "- [ ] b"] :=
  ⟨rfl, C4_parse_meets_spec.1 _ _ rfl⟩
